import Mathlib

/-!
Shallow embedding of the transcode-orchestration core of `src/main.rs`
(struct `FFUIApp` and the encode thread spawned in `FFUIApp::update`).

The observable session state consists of five shared cells
(`progress : Arc<Mutex<f32>>`, `running : Arc<Mutex<bool>>`,
`log_text : Arc<Mutex<String>>`, `completed : Arc<Mutex<bool>>`,
`stop_flag : Arc<AtomicBool>`).  Every write in the source acquires one
cell's lock, writes, and releases, so a run is embedded as a list of
atomic single-cell writes (`Step`); a polling reader may observe the
state after any prefix of that list.  f32/f64 arithmetic is embedded
over `ℚ` (every concrete value used below is exactly representable, and
all operations on them are exact in IEEE arithmetic as well).
-/

/-- The observable shared state of `FFUIApp`: the five cells a poller
can read (`progress`, `running`, `completed`, `log_text`, `stop_flag`). -/
structure SessionState where
  progress : ℚ
  running : Bool
  completed : Bool
  log_text : String
  stop_flag : Bool
deriving DecidableEq

/-- One atomic action of the start handler, the encode thread or the
cancelling poller.  `probeMedia`, `probeDuration`, `spawnEngine`,
`killProcess` and `waitProcess` are the blocking external-process
actions; they do not change `SessionState` but their position in the
trace records when blocking work happens. -/
inductive Step where
  | setProgress (q : ℚ)
  | setRunning (b : Bool)
  | setCompleted (b : Bool)
  | setLog (s : String)
  | appendLog (s : String)
  | setStop (b : Bool)
  | probeMedia
  | probeDuration
  | spawnEngine
  | killProcess
  | waitProcess
deriving DecidableEq

/-- Effect of one atomic step on the shared state (each field is its own
mutex / atomic in the source, so each constructor touches one field). -/
def applyStep (s : SessionState) : Step → SessionState
  | .setProgress q => { s with progress := q }
  | .setRunning b => { s with running := b }
  | .setCompleted b => { s with completed := b }
  | .setLog t => { s with log_text := t }
  | .appendLog t => { s with log_text := s.log_text ++ t }
  | .setStop b => { s with stop_flag := b }
  | .probeMedia => s
  | .probeDuration => s
  | .spawnEngine => s
  | .killProcess => s
  | .waitProcess => s

/-- Run a list of atomic steps from a state. -/
def applyTrace (s : SessionState) (l : List Step) : SessionState :=
  l.foldl applyStep s

/-- Cancellation marker appended in the `stop_flag` branch (main.rs:198). -/
def cancelMsg : String := "\n=== 已中断 ===\n"

/-- Failure marker appended when the output file is missing or empty
(main.rs:205). -/
def failMsg : String := "\n=== 转换失败：输出文件为空 ===\n"

/-- Success marker appended in the success branch (main.rs:212). -/
def okMsg : String := "\n=== 转换完成 ===\n"

/-- Environment of one run: everything the external world decides.
`duration` is the value `FFUIApp::get_duration` returned; `lines` is the
sequence of lines ffmpeg writes to its progress pipe; `cancelAt = some k`
means the poller's `stop_flag.store(true)` becomes visible between the
(k-1)-th and k-th line-boundary check (`none`: never during the run);
`fileExists` / `fileLen` describe the output file after process exit
(`metadata()` failure is `fileLen = 0`, matching `unwrap_or(0)`);
`exitCode` is the engine's exit status; `spawnOk` is whether
`cmd.spawn()` succeeded; `mediaInfo` is `get_media_info`'s output. -/
structure RunConfig where
  duration : ℚ
  lines : List String
  cancelAt : Option ℕ
  fileExists : Bool
  fileLen : ℕ
  exitCode : ℤ
  spawnOk : Bool
  mediaInfo : String

/-- Whether the run observes cancellation: the flag check at some line
boundary (or the re-check at main.rs:193 after the stream ends) sees
`true`.  A store that lands after the final check is never observed. -/
def cancelled (cfg : RunConfig) : Bool :=
  match cfg.cancelAt with
  | none => false
  | some k => decide (k ≤ cfg.lines.length)

/-- The lines the reader loop actually processes: all of them, unless the
flag check at boundary `k` breaks the loop first (main.rs:184). -/
def processedLines (cfg : RunConfig) : List String :=
  match cfg.cancelAt with
  | none => cfg.lines
  | some k => cfg.lines.take k

/-- `line.starts_with("out_time_ms=")` (main.rs:185), embedded over the
line's character list (the key is ASCII, so byte and character prefixes
coincide). -/
def hasTimeKey (l : String) : Bool :=
  List.isPrefixOf "out_time_ms=".data l.data

/-- `&line["out_time_ms=".len()..]` (main.rs:186): the value after the
12-byte key (12 ASCII bytes = 12 characters whenever the key is a
prefix). -/
def timeValue (l : String) : String :=
  String.mk (l.data.drop 12)

/-- Steps produced by one line of the progress stream (main.rs:185-189):
only lines starting with `out_time_ms=` are considered, only when
`duration > 0.0`, and only when the value parses; everything else is
skipped with no state change and no log entry.  `P` embeds Rust's
`str::parse::<f64>`. -/
def lineStep (P : String → Option ℚ) (d : ℚ) (l : String) : List Step :=
  if hasTimeKey l = true ∧ 0 < d then
    match P (timeValue l) with
    | some ms => [Step.setProgress (ms / (d * 1000000) * 100)]
    | none => []
  else []

/-- Steps of the reader loop over a list of lines. -/
def stepsOfLines (P : String → Option ℚ) (d : ℚ) : List String → List Step
  | [] => []
  | l :: ls => lineStep P d l ++ stepsOfLines P d ls

/-- Steps of the reader loop of a run. -/
def loopTrace (P : String → Option ℚ) (cfg : RunConfig) : List Step :=
  stepsOfLines P cfg.duration (processedLines cfg)

/-- Finalization after the reader loop (main.rs:193-214): the cancel
branch hard-kills the process, appends the cancel marker and zeroes
progress (the poller's `store(true)` is the `setStop true` step); the
non-cancel branch waits for natural exit and classifies by the output
file only. -/
def finalizeTrace (cfg : RunConfig) : List Step :=
  if cancelled cfg then
    [Step.setStop true, Step.killProcess, Step.appendLog cancelMsg,
     Step.setProgress 0]
  else
    Step.waitProcess ::
      (if cfg.fileExists = false ∨ cfg.fileLen = 0 then
        [Step.appendLog failMsg, Step.setCompleted false, Step.setProgress 0]
      else
        [Step.setCompleted true, Step.setProgress 100, Step.appendLog okMsg])

/-- The start-button handler's synchronous writes (main.rs:138-142), in
source order.  The right-hand side `get_media_info(&input)` — a blocking
ffprobe invocation — is evaluated before `log_text` is assigned, so the
`probeMedia` step sits between the `completed` reset and the `log_text`,
`progress` and `stop_flag` resets. -/
def startTrace (info : String) : List Step :=
  [Step.setRunning true, Step.setCompleted false, Step.probeMedia,
   Step.setLog info, Step.setProgress 0, Step.setStop false]

/-- The encode thread (main.rs:144-216): duration probe, engine spawn,
reader loop, finalization, `running := false`.  If `spawn()` fails the
`expect` panics and the thread dies right there: no later step runs. -/
def threadTrace (P : String → Option ℚ) (cfg : RunConfig) : List Step :=
  Step.probeDuration ::
    (if cfg.spawnOk then
      Step.spawnEngine ::
        (loopTrace P cfg ++ finalizeTrace cfg ++ [Step.setRunning false])
    else [Step.spawnEngine])

/-- The whole run: synchronous start-handler writes, then the thread. -/
def fullTrace (P : String → Option ℚ) (cfg : RunConfig) : List Step :=
  startTrace cfg.mediaInfo ++ threadTrace P cfg

/-- Final state of a run started from `init`. -/
def finalState (P : String → Option ℚ) (cfg : RunConfig)
    (init : SessionState) : SessionState :=
  applyTrace init (fullTrace P cfg)

/-- A state the poller can observe during a run: the state after any
prefix of the run's atomic steps (reads take each cell's lock but write
nothing, so interleaved reads observe exactly these states). -/
def reachable (P : String → Option ℚ) (cfg : RunConfig)
    (init : SessionState) (s : SessionState) : Prop :=
  ∃ n, s = applyTrace init ((fullTrace P cfg).take n)

/-- Codec selection (main.rs:147-152). -/
def codec (gpu : String) : String :=
  if gpu = "NVIDIA" then "h264_nvenc"
  else if gpu = "Intel" then "h264_qsv"
  else if gpu = "AMD" then "h264_amf"
  else "libx264"

/-- Hardware-acceleration arguments (main.rs:155-162): only added when
the device is not `CPU`, and only for the three recognized vendors. -/
def hwaccelArgs (gpu : String) : List String :=
  if gpu ≠ "CPU" then
    if gpu = "NVIDIA" then ["-hwaccel", "cuda"]
    else if gpu = "Intel" then ["-hwaccel", "qsv"]
    else if gpu = "AMD" then ["-hwaccel", "dxva2"]
    else []
  else []

/-- Outcome of running the duration ffprobe invocation: whether the
process could be launched, whether it exited successfully, and its
captured stdout text. -/
structure ProbeOutcome where
  launched : Bool
  exitOk : Bool
  stdout : String

/-- `str::trim` embedded over the character list: whitespace stripped
from both ends. -/
def trimStr (s : String) : String :=
  String.mk
    (((s.data.dropWhile Char.isWhitespace).reverse.dropWhile
      Char.isWhitespace).reverse)

/-- `FFUIApp::get_duration` (main.rs:79-90): `output().expect(...)`
panics (`none`) when ffprobe cannot be launched; otherwise stdout is
trimmed and parsed, with `unwrap_or(0.0)` on parse failure.  The exit
status of the probe is never inspected. -/
def get_duration (P : String → Option ℚ) (o : ProbeOutcome) : Option ℚ :=
  if o.launched then some ((P (trimStr o.stdout)).getD 0) else none

/-- The completion fraction the progress computation at main.rs:187 is
built from: `progress = (ms / (duration * 1_000_000.0)) * 100.0`, so the
fraction of the total duration is `ms / (duration * 1000000)`. -/
def completionFraction (elapsedMicroseconds totalSeconds : ℚ) : ℚ :=
  elapsedMicroseconds / (totalSeconds * 1000000)

/-- Model of Rust `str::parse::<f64>` restricted to unsigned decimal
integer literals: digit strings parse to their value, the empty string
and any string containing a non-digit do not parse.  (Rust's parser
accepts further forms — signs, fractions, exponents — none of which
occur in the concrete runs considered here; on the inputs used in
witnesses below the two parsers agree.) -/
def parseDecAux : List Char → ℕ → Option ℕ
  | [], n => some n
  | c :: cs, n =>
    if c.isDigit then parseDecAux cs (10 * n + (c.toNat - 48)) else none

/-- See `parseDecAux`. -/
def parseDec (s : String) : Option ℚ :=
  match s.data with
  | [] => none
  | l => (parseDecAux l 0).map (fun n => (n : ℚ))

/-- A fresh state, as on first launch of the app (main.rs:287-292). -/
def initialState : SessionState :=
  { progress := 0, running := false, completed := false,
    log_text := "", stop_flag := false }

/-- The state right after the start handler's writes: progress 0,
running, not completed, log seeded with the media info, flag cleared. -/
def startState (info : String) : SessionState :=
  { progress := 0, running := true, completed := false,
    log_text := info, stop_flag := false }

lemma applyTrace_nil (s : SessionState) : applyTrace s [] = s := rfl

lemma applyTrace_cons (s : SessionState) (a : Step) (l : List Step) :
    applyTrace s (a :: l) = applyTrace (applyStep s a) l := rfl

lemma applyTrace_append (s : SessionState) (a b : List Step) :
    applyTrace s (a ++ b) = applyTrace (applyTrace s a) b := by
  simp [applyTrace, List.foldl_append]

lemma mem_lineStep {P : String → Option ℚ} {d : ℚ} {l : String} {st : Step}
    (h : st ∈ lineStep P d l) :
    ∃ ms, P (timeValue l) = some ms ∧ 0 < d ∧
      st = Step.setProgress (ms / (d * 1000000) * 100) := by
  unfold lineStep at h
  split at h
  · next hcond =>
    split at h
    · next ms hms =>
      exact ⟨ms, hms, hcond.2, List.mem_singleton.mp h⟩
    · exact absurd h (List.not_mem_nil st)
  · exact absurd h (List.not_mem_nil st)

lemma mem_stepsOfLines {P : String → Option ℚ} {d : ℚ} {ls : List String}
    {st : Step} (h : st ∈ stepsOfLines P d ls) :
    ∃ l ∈ ls, st ∈ lineStep P d l := by
  induction ls with
  | nil => exact absurd h (List.not_mem_nil st)
  | cons a l ih =>
    rw [stepsOfLines, List.mem_append] at h
    rcases h with h | h
    · exact ⟨a, List.mem_cons_self a l, h⟩
    · obtain ⟨x, hx, hst⟩ := ih h
      exact ⟨x, List.mem_cons_of_mem a hx, hst⟩

lemma stepsOfLines_progressOnly {P : String → Option ℚ} {d : ℚ}
    {ls : List String} {st : Step} (h : st ∈ stepsOfLines P d ls) :
    ∃ q, st = Step.setProgress q := by
  obtain ⟨l, _, hst⟩ := mem_stepsOfLines h
  obtain ⟨ms, _, _, rfl⟩ := mem_lineStep hst
  exact ⟨_, rfl⟩

lemma stepsOfLines_nonpos {P : String → Option ℚ} {d : ℚ} (hd : ¬0 < d)
    (ls : List String) : stepsOfLines P d ls = [] := by
  induction ls with
  | nil => rfl
  | cons a l ih =>
    rw [stepsOfLines, ih, List.append_nil, lineStep,
      if_neg (fun hc => hd hc.2)]

lemma applyTrace_progressOnly (L : List Step)
    (h : ∀ st ∈ L, ∃ q, st = Step.setProgress q) (s : SessionState) :
    applyTrace s L = { s with progress := (applyTrace s L).progress } := by
  induction L generalizing s with
  | nil => rfl
  | cons a l ih =>
    obtain ⟨q, rfl⟩ := h a (List.mem_cons_self a l)
    rw [applyTrace_cons,
      ih (fun st hst => h st (List.mem_cons_of_mem _ hst))]
    rfl

lemma applyTrace_startTrace (init : SessionState) (info : String) :
    applyTrace init (startTrace info) = startState info := rfl

/-- A run whose engine fails to spawn: the thread panics at the
`expect` and dies; the state stays as the start handler left it. -/
lemma finalState_spawnFail (P : String → Option ℚ) (cfg : RunConfig)
    (init : SessionState) (hs : cfg.spawnOk = false) :
    finalState P cfg init = startState cfg.mediaInfo := by
  unfold finalState fullTrace threadTrace
  rw [hs]
  rw [applyTrace_append, applyTrace_startTrace]
  rfl

lemma finalState_run (P : String → Option ℚ) (cfg : RunConfig)
    (init : SessionState) (hs : cfg.spawnOk = true) :
    finalState P cfg init =
      applyTrace
        { startState cfg.mediaInfo with
            progress :=
              (applyTrace (startState cfg.mediaInfo) (loopTrace P cfg)).progress }
        (finalizeTrace cfg ++ [Step.setRunning false]) := by
  unfold finalState fullTrace threadTrace
  rw [hs, if_pos rfl, applyTrace_append, applyTrace_startTrace]
  show applyTrace (startState cfg.mediaInfo)
    (loopTrace P cfg ++ finalizeTrace cfg ++ [Step.setRunning false]) = _
  rw [List.append_assoc, applyTrace_append,
    applyTrace_progressOnly (loopTrace P cfg)
      (fun st hst => stepsOfLines_progressOnly hst)]

/-- Final state of a cancelled run. -/
lemma finalState_cancel (P : String → Option ℚ) (cfg : RunConfig)
    (init : SessionState) (hs : cfg.spawnOk = true)
    (hc : cancelled cfg = true) :
    finalState P cfg init =
      { progress := 0, running := false, completed := false,
        log_text := cfg.mediaInfo ++ cancelMsg, stop_flag := true } := by
  rw [finalState_run P cfg init hs]
  unfold finalizeTrace
  rw [hc]
  rfl

/-- Final state of a run whose output file is missing or empty. -/
lemma finalState_fail (P : String → Option ℚ) (cfg : RunConfig)
    (init : SessionState) (hs : cfg.spawnOk = true)
    (hc : cancelled cfg = false)
    (hf : cfg.fileExists = false ∨ cfg.fileLen = 0) :
    finalState P cfg init =
      { progress := 0, running := false, completed := false,
        log_text := cfg.mediaInfo ++ failMsg, stop_flag := false } := by
  rw [finalState_run P cfg init hs]
  unfold finalizeTrace
  rw [hc]
  show applyTrace _ (Step.waitProcess :: _ ++ _) = _
  rw [if_pos hf]
  rfl

/-- Final state of a successful run. -/
lemma finalState_ok (P : String → Option ℚ) (cfg : RunConfig)
    (init : SessionState) (hs : cfg.spawnOk = true)
    (hc : cancelled cfg = false)
    (hf : cfg.fileExists = true ∧ cfg.fileLen ≠ 0) :
    finalState P cfg init =
      { progress := 100, running := false, completed := true,
        log_text := cfg.mediaInfo ++ okMsg, stop_flag := false } := by
  rw [finalState_run P cfg init hs]
  unfold finalizeTrace
  rw [hc]
  show applyTrace _ (Step.waitProcess :: _ ++ _) = _
  rw [if_neg]
  · rfl
  · rintro (h | h)
    · rw [hf.1] at h
      exact Bool.noConfusion h
    · exact hf.2 h

/-- A successful run: duration 100 s, one progress line at 50 s, not
cancelled, non-empty output file. -/
def cfgOk : RunConfig :=
  { duration := 100, lines := ["out_time_ms=50000000"], cancelAt := none,
    fileExists := true, fileLen := 5, exitCode := 0, spawnOk := true,
    mediaInfo := "I" }

/-- A cancelled run: the stop flag becomes visible after the first
progress line. -/
def cfgCancelled : RunConfig :=
  { duration := 100, lines := ["out_time_ms=50000000"], cancelAt := some 1,
    fileExists := true, fileLen := 5, exitCode := 0, spawnOk := true,
    mediaInfo := "I" }

/-- A run whose engine process fails to spawn. -/
def cfgNoSpawn : RunConfig :=
  { duration := 100, lines := [], cancelAt := none, fileExists := false,
    fileLen := 0, exitCode := 0, spawnOk := false, mediaInfo := "I" }

/-- A run with unknown (zero) duration but progress lines arriving. -/
def cfgNoDuration : RunConfig :=
  { duration := 0, lines := ["out_time_ms=50000000"], cancelAt := none,
    fileExists := true, fileLen := 5, exitCode := 0, spawnOk := true,
    mediaInfo := "I" }

/-- A run whose elapsed time (200 s) exceeds the total duration (1 s). -/
def cfgOvershoot : RunConfig :=
  { duration := 1, lines := ["out_time_ms=200000000"], cancelAt := none,
    fileExists := true, fileLen := 5, exitCode := 0, spawnOk := true,
    mediaInfo := "I" }

/-- A run that produces no progress lines at all. -/
def cfgNoLines : RunConfig :=
  { duration := 100, lines := [], cancelAt := none, fileExists := true,
    fileLen := 5, exitCode := 0, spawnOk := true, mediaInfo := "I" }

/-- A duration-probe run that launched but printed something the float
parser rejects. -/
def probeBad : ProbeOutcome :=
  { launched := true, exitOk := false, stdout := "N/A" }

/-- C1: for every non-cancelled run, after the engine exits the outcome
is classified solely by the output file: missing or zero-length file
means Failed (failure marker appended, progress 0, completed false),
otherwise Completed (progress 100, completed true, success marker
appended); the exit code is never consulted (the final state is
invariant under changing it). -/
theorem c1_classification_by_output_file (P : String → Option ℚ)
    (cfg : RunConfig) (init : SessionState)
    (hc : cancelled cfg = false) (hs : cfg.spawnOk = true) :
    (cfg.fileExists = false ∨ cfg.fileLen = 0 →
      finalState P cfg init =
        { progress := 0, running := false, completed := false,
          log_text := cfg.mediaInfo ++ failMsg, stop_flag := false }) ∧
    (cfg.fileExists = true ∧ cfg.fileLen ≠ 0 →
      finalState P cfg init =
        { progress := 100, running := false, completed := true,
          log_text := cfg.mediaInfo ++ okMsg, stop_flag := false }) ∧
    ∀ e : ℤ, finalState P { cfg with exitCode := e } init =
      finalState P cfg init :=
  ⟨fun hf => finalState_fail P cfg init hs hc hf,
   fun hf => finalState_ok P cfg init hs hc hf,
   fun _ => rfl⟩

/-- Witness for C1 at a concrete successful run. -/
theorem c1_classification_by_output_file_witness :
    finalState parseDec cfgOk initialState =
      { progress := 100, running := false, completed := true,
        log_text := "I" ++ okMsg, stop_flag := false } :=
  (c1_classification_by_output_file parseDec cfgOk initialState rfl
    rfl).2.1 ⟨rfl, by decide⟩

/-- C2: whenever cancellation is observed, the run hard-kills the
process, appends the cancellation marker, resets progress to 0, leaves
completed false and running false — and never waits for natural process
exit (`waitProcess` is not in the trace). -/
theorem c2_cancellation_hard_kill (P : String → Option ℚ)
    (cfg : RunConfig) (init : SessionState)
    (hc : cancelled cfg = true) (hs : cfg.spawnOk = true) :
    finalState P cfg init =
      { progress := 0, running := false, completed := false,
        log_text := cfg.mediaInfo ++ cancelMsg, stop_flag := true } ∧
    Step.killProcess ∈ fullTrace P cfg ∧
    Step.waitProcess ∉ fullTrace P cfg := by
  refine ⟨finalState_cancel P cfg init hs hc, ?_, ?_⟩
  · simp [fullTrace, threadTrace, hs, startTrace, finalizeTrace, hc]
  · have hloop : Step.waitProcess ∉ loopTrace P cfg := fun hm => by
      obtain ⟨q, hq⟩ := stepsOfLines_progressOnly hm
      exact Step.noConfusion hq
    simp [fullTrace, threadTrace, hs, startTrace, finalizeTrace, hc, hloop]

/-- Witness for C2 at a concrete cancelled run. -/
theorem c2_cancellation_hard_kill_witness :
    finalState parseDec cfgCancelled initialState =
      { progress := 0, running := false, completed := false,
        log_text := "I" ++ cancelMsg, stop_flag := true } ∧
    Step.waitProcess ∉ fullTrace parseDec cfgCancelled :=
  ⟨(c2_cancellation_hard_kill parseDec cfgCancelled initialState
      (by decide) rfl).1,
   (c2_cancellation_hard_kill parseDec cfgCancelled initialState
      (by decide) rfl).2.2⟩

/-- C5 (code bug): a failed engine spawn panics the background thread
via `expect` after `running` was already set; the observable state stays
frozen at the post-start state, with `running = true` forever. -/
theorem c5_spawn_failure_leaves_running (P : String → Option ℚ)
    (cfg : RunConfig) (init : SessionState) (hs : cfg.spawnOk = false) :
    finalState P cfg init = startState cfg.mediaInfo ∧
    (finalState P cfg init).running = true :=
  ⟨finalState_spawnFail P cfg init hs,
   by rw [finalState_spawnFail P cfg init hs]; rfl⟩

/-- Witness for C5: a concrete run with a failing spawn. -/
theorem c5_spawn_failure_leaves_running_witness :
    (finalState parseDec cfgNoSpawn initialState).running = true :=
  (c5_spawn_failure_leaves_running parseDec cfgNoSpawn initialState rfl).2

/-- C7: the command planner is a pure total function realizing exactly
the device table; unrecognized devices fall back to the CPU codec with
no hardware-acceleration flag. -/
theorem c7_command_planner_table :
    codec "NVIDIA" = "h264_nvenc" ∧
    hwaccelArgs "NVIDIA" = ["-hwaccel", "cuda"] ∧
    codec "Intel" = "h264_qsv" ∧ hwaccelArgs "Intel" = ["-hwaccel", "qsv"] ∧
    codec "AMD" = "h264_amf" ∧ hwaccelArgs "AMD" = ["-hwaccel", "dxva2"] ∧
    codec "CPU" = "libx264" ∧ hwaccelArgs "CPU" = [] ∧
    ∀ g : String, g ≠ "NVIDIA" → g ≠ "Intel" → g ≠ "AMD" →
      codec g = "libx264" ∧ hwaccelArgs g = [] := by
  refine ⟨by decide, by decide, by decide, by decide, by decide, by decide,
    by decide, by decide, ?_⟩
  intro g h1 h2 h3
  constructor
  · rw [codec, if_neg h1, if_neg h2, if_neg h3]
  · by_cases hc : g = "CPU"
    · rw [hwaccelArgs, if_neg (fun hne => hne hc)]
    · rw [hwaccelArgs, if_pos hc, if_neg h1, if_neg h2, if_neg h3]

/-- Witness for C7 at an unrecognized device string. -/
theorem c7_command_planner_table_witness :
    codec "Matrox" = "libx264" ∧ hwaccelArgs "Matrox" = [] :=
  c7_command_planner_table.2.2.2.2.2.2.2.2 "Matrox" (by decide) (by decide)
    (by decide)

/-- C8: a progress line carrying the elapsed-time key with parsed value
`ms` and total duration `t > 0` writes exactly the completion fraction
`ms / (t * 1000000)` times 100; and the fraction takes the documented
values at (0, 100), (50000000, 50) and (25000000, 100). -/
theorem c8_completion_fraction_formula (P : String → Option ℚ)
    (l : String) (ms t : ℚ) (ht : 0 < t) (hk : hasTimeKey l = true)
    (hp : P (timeValue l) = some ms) :
    lineStep P t l = [Step.setProgress (completionFraction ms t * 100)] ∧
    completionFraction ms t = ms / (t * 1000000) ∧
    completionFraction 0 100 = 0 ∧
    completionFraction 50000000 50 = 1 ∧
    completionFraction 25000000 100 = 0.25 := by
  refine ⟨?_, rfl, by norm_num [completionFraction],
    by norm_num [completionFraction], by norm_num [completionFraction]⟩
  rw [lineStep, if_pos ⟨hk, ht⟩, hp]
  rfl

/-- Witness for C8 at a concrete line and duration. -/
theorem c8_completion_fraction_formula_witness :
    lineStep parseDec 100 "out_time_ms=25000000" =
      [Step.setProgress (completionFraction 25000000 100 * 100)] ∧
    completionFraction 25000000 100 = 0.25 := by
  have h := c8_completion_fraction_formula parseDec "out_time_ms=25000000"
    25000000 100 (by norm_num) (by decide) (by decide)
  exact ⟨h.1, h.2.2.2.2⟩

/-- C9: when the probe launched but its numeric output does not parse,
`get_duration` returns 0.0 rather than an error (independent of the
probe's exit status); and with total duration ≤ 0 the reader loop
produces no progress update at all, leaving the state untouched. -/
theorem c9_duration_unknown_disables_progress (P : String → Option ℚ)
    (o : ProbeOutcome) (ho : o.launched = true)
    (hp : P (trimStr o.stdout) = none) :
    get_duration P o = some 0 ∧
    (∀ b, get_duration P { o with exitOk := b } = get_duration P o) ∧
    ∀ (cfg : RunConfig) (s : SessionState), cfg.duration ≤ 0 →
      loopTrace P cfg = [] ∧ applyTrace s (loopTrace P cfg) = s := by
  refine ⟨?_, fun b => rfl, fun cfg s hd => ?_⟩
  · rw [get_duration, if_pos ho, hp]
    rfl
  · have h0 : loopTrace P cfg = [] := by
      rw [loopTrace]
      exact stepsOfLines_nonpos (fun hlt => absurd hd (not_le.mpr hlt)) _
    exact ⟨h0, by rw [h0]; rfl⟩

/-- Witness for C9 at a concrete unparsable probe output and a
zero-duration run. -/
theorem c9_duration_unknown_disables_progress_witness :
    get_duration parseDec probeBad = some 0 ∧
    loopTrace parseDec cfgNoDuration = [] := by
  have h := c9_duration_unknown_disables_progress parseDec probeBad rfl
    (by decide)
  exact ⟨h.1, (h.2.2 cfgNoDuration initialState (by norm_num [cfgNoDuration])).1⟩

/-- C10: a line that starts with the elapsed-time key but whose value
fails to parse is silently skipped: no step is emitted, so progress
keeps its previous value and no log entry is made. -/
theorem c10_unparsable_value_skipped (P : String → Option ℚ) (d : ℚ)
    (l : String) (hk : hasTimeKey l = true)
    (hp : P (timeValue l) = none) :
    lineStep P d l = [] ∧
    ∀ s : SessionState, applyTrace s (lineStep P d l) = s := by
  have h0 : lineStep P d l = [] := by
    rw [lineStep]
    by_cases hcond : hasTimeKey l = true ∧ 0 < d
    · rw [if_pos hcond, hp]
    · rw [if_neg hcond]
  exact ⟨h0, fun s => by rw [h0]; rfl⟩

/-- Witness for C10 at a concrete malformed line. -/
theorem c10_unparsable_value_skipped_witness :
    lineStep parseDec 100 "out_time_ms=abc" = [] ∧
    applyTrace initialState (lineStep parseDec 100 "out_time_ms=abc") =
      initialState := by
  have h := c10_unparsable_value_skipped parseDec 100 "out_time_ms=abc"
    (by decide) (by decide)
  exact ⟨h.1, h.2 initialState⟩

lemma startTrace_progress_bound {info : String} {q : ℚ}
    (h : Step.setProgress q ∈ startTrace info) : q = 0 := by
  rw [startTrace] at h
  simp at h
  exact h

lemma finalizeTrace_progress_bound {cfg : RunConfig} {q : ℚ}
    (h : Step.setProgress q ∈ finalizeTrace cfg) : q = 0 ∨ q = 100 := by
  rw [finalizeTrace] at h
  split at h
  · simp at h
    exact Or.inl h
  · rw [List.mem_cons] at h
    rcases h with h | h
    · exact absurd h (by simp)
    · split at h
      · simp at h
        exact Or.inl h
      · simp at h
        exact Or.inr h

lemma loopTrace_progress_bound {P : String → Option ℚ} {cfg : RunConfig}
    (hb : ∀ l ∈ cfg.lines, ∀ e : ℚ, P (timeValue l) = some e →
      0 ≤ e ∧ e ≤ cfg.duration * 1000000)
    {q : ℚ} (h : Step.setProgress q ∈ loopTrace P cfg) :
    0 ≤ q ∧ q ≤ 100 := by
  rw [loopTrace] at h
  obtain ⟨l, hl, hstep⟩ := mem_stepsOfLines h
  obtain ⟨ms, hms, hd, heq⟩ := mem_lineStep hstep
  have hlin : l ∈ cfg.lines := by
    rw [processedLines] at hl
    rcases hca : cfg.cancelAt with _ | k
    · rwa [hca] at hl
    · rw [hca] at hl
      exact List.take_subset k cfg.lines hl
  obtain ⟨he0, he1⟩ := hb l hlin ms hms
  have hq : q = ms / (cfg.duration * 1000000) * 100 := by
    injection heq
  have hdpos : (0 : ℚ) < cfg.duration * 1000000 :=
    mul_pos hd (by norm_num)
  constructor
  · rw [hq]
    exact mul_nonneg (div_nonneg he0 hdpos.le) (by norm_num)
  · rw [hq]
    calc ms / (cfg.duration * 1000000) * 100 ≤ 1 * 100 :=
          mul_le_mul_of_nonneg_right ((div_le_one hdpos).mpr he1)
            (by norm_num)
    _ = 100 := by norm_num

lemma fullTrace_progress_bound {P : String → Option ℚ} {cfg : RunConfig}
    (hb : ∀ l ∈ cfg.lines, ∀ e : ℚ, P (timeValue l) = some e →
      0 ≤ e ∧ e ≤ cfg.duration * 1000000)
    {q : ℚ} (h : Step.setProgress q ∈ fullTrace P cfg) :
    0 ≤ q ∧ q ≤ 100 := by
  rw [fullTrace] at h
  rcases List.mem_append.mp h with h | h
  · rw [startTrace_progress_bound h]
    norm_num
  · rw [threadTrace] at h
    rw [List.mem_cons] at h
    rcases h with h | h
    · exact absurd h (by simp)
    · split at h
      · rw [List.mem_cons] at h
        rcases h with h | h
        · exact absurd h (by simp)
        · rcases List.mem_append.mp h with h | h
          · rcases List.mem_append.mp h with h | h
            · exact loopTrace_progress_bound hb h
            · rcases finalizeTrace_progress_bound h with h0 | h0 <;>
                rw [h0] <;> norm_num
          · exact absurd h (by simp)
      · exact absurd h (by simp)

lemma applyTrace_take_progress_bound (L : List Step)
    (hL : ∀ q : ℚ, Step.setProgress q ∈ L → 0 ≤ q ∧ q ≤ 100) :
    ∀ (s : SessionState), 0 ≤ s.progress → s.progress ≤ 100 →
      ∀ n, 0 ≤ (applyTrace s (L.take n)).progress ∧
        (applyTrace s (L.take n)).progress ≤ 100 := by
  induction L with
  | nil =>
    intro s h0 h1 n
    rw [List.take_nil]
    exact ⟨h0, h1⟩
  | cons a l ih =>
    intro s h0 h1 n
    have hl : ∀ q : ℚ, Step.setProgress q ∈ l → 0 ≤ q ∧ q ≤ 100 :=
      fun q hq => hL q (List.mem_cons_of_mem _ hq)
    cases n with
    | zero => exact ⟨h0, h1⟩
    | succ m =>
      rw [List.take_succ_cons, applyTrace_cons]
      have hstep : 0 ≤ (applyStep s a).progress ∧
          (applyStep s a).progress ≤ 100 := by
        cases a with
        | setProgress q => exact hL q (List.mem_cons_self _ _)
        | setRunning b => exact ⟨h0, h1⟩
        | setCompleted b => exact ⟨h0, h1⟩
        | setLog t => exact ⟨h0, h1⟩
        | appendLog t => exact ⟨h0, h1⟩
        | setStop b => exact ⟨h0, h1⟩
        | probeMedia => exact ⟨h0, h1⟩
        | probeDuration => exact ⟨h0, h1⟩
        | spawnEngine => exact ⟨h0, h1⟩
        | killProcess => exact ⟨h0, h1⟩
        | waitProcess => exact ⟨h0, h1⟩
      exact ih hl (applyStep s a) hstep.1 hstep.2 m

/-- A leftover state from a previously completed run, still visible to
the poller when the next start is accepted. -/
def staleState : SessionState :=
  { progress := 100, running := false, completed := true,
    log_text := "old", stop_flag := false }

/-- C3 (counterexample): the interleaving-invariant
"completed = true implies running = false and progress = 100" fails:
in the success branch `completed` is set under its own lock before
`progress` and before `running` is cleared (main.rs:209-215), so the
poller can observe `completed = true` while `running` is still `true`
(here: the state after the first 11 atomic steps of a successful run,
where progress is moreover still 50, not 100). -/
theorem c3_invariant_counterexample :
    reachable parseDec cfgOk initialState
      (applyTrace initialState ((fullTrace parseDec cfgOk).take 11)) ∧
    (applyTrace initialState
      ((fullTrace parseDec cfgOk).take 11)).completed = true ∧
    (applyTrace initialState
      ((fullTrace parseDec cfgOk).take 11)).running = true :=
  ⟨⟨11, rfl⟩, by decide, by decide⟩

/-- C3 (amended): the invariant does hold of every quiescent state: in
the final state of any run, `completed = true` implies
`running = false` and `progress = 100`.  (Transient states during
finalization can violate it, see the counterexample.) -/
theorem c3_final_state_invariant (P : String → Option ℚ)
    (cfg : RunConfig) (init : SessionState)
    (h : (finalState P cfg init).completed = true) :
    (finalState P cfg init).running = false ∧
    (finalState P cfg init).progress = 100 := by
  cases hs : cfg.spawnOk with
  | false =>
    rw [finalState_spawnFail P cfg init hs] at h
    exact Bool.noConfusion h
  | true =>
    cases hc : cancelled cfg with
    | true =>
      rw [finalState_cancel P cfg init hs hc] at h
      exact Bool.noConfusion h
    | false =>
      by_cases hf : cfg.fileExists = false ∨ cfg.fileLen = 0
      · rw [finalState_fail P cfg init hs hc hf] at h
        exact Bool.noConfusion h
      · have hf2 : cfg.fileExists = true ∧ cfg.fileLen ≠ 0 := by
          constructor
          · cases hfe : cfg.fileExists
            · exact absurd (Or.inl hfe) hf
            · rfl
          · exact fun h0 => hf (Or.inr h0)
        rw [finalState_ok P cfg init hs hc hf2]
        exact ⟨rfl, rfl⟩

/-- Witness for the amended C3 at a concrete successful run. -/
theorem c3_final_state_invariant_witness :
    (finalState parseDec cfgOk initialState).running = false ∧
    (finalState parseDec cfgOk initialState).progress = 100 :=
  c3_final_state_invariant parseDec cfgOk initialState
    (by rw [finalState_ok parseDec cfgOk initialState rfl rfl
      ⟨rfl, by decide⟩])

/-- C4 (counterexample): the claimed full reset to
(0, true, false, "", false) before any blocking work is not what the
code does.  After the first three atomic steps of a run the first probe
(`get_media_info`) is already executing, yet the poller still sees the
previous run's progress (100) and log ("old"): only `running` and
`completed` were reset before the blocking call.  Moreover the log is
then seeded with the probe output, never cleared to "". -/
theorem c4_reset_counterexample :
    reachable parseDec cfgOk staleState
      (applyTrace staleState ((fullTrace parseDec cfgOk).take 3)) ∧
    (fullTrace parseDec cfgOk).take 3 =
      [Step.setRunning true, Step.setCompleted false, Step.probeMedia] ∧
    (applyTrace staleState ((fullTrace parseDec cfgOk).take 3)).running
      = true ∧
    (applyTrace staleState ((fullTrace parseDec cfgOk).take 3)).progress
      = 100 ∧
    (applyTrace staleState ((fullTrace parseDec cfgOk).take 3)).log_text
      = "old" ∧
    (applyTrace staleState (startTrace "I")).log_text = "I" :=
  ⟨⟨3, rfl⟩, by decide, by decide, by decide, by decide, by decide⟩

/-- C4 (amended): on an accepted start, `running := true` and
`completed := false` are written synchronously before the blocking
metadata probe; `log_text` is then seeded with the probe's output (not
cleared to ""), and `progress := 0` and the cancel flag reset follow,
all before the background thread is spawned — so the full reset (with
`log_text` = probe output) is visible to the poller before the thread's
first blocking step (the duration probe). -/
theorem c4_reset_before_thread (init : SessionState) (info : String) :
    applyTrace init (startTrace info) = startState info ∧
    (startTrace info).take 2 =
      [Step.setRunning true, Step.setCompleted false] ∧
    ∀ (P : String → Option ℚ) (cfg : RunConfig),
      (fullTrace P cfg).take 6 = startTrace cfg.mediaInfo ∧
      (fullTrace P cfg).drop 6 = threadTrace P cfg ∧
      (threadTrace P cfg).take 1 = [Step.probeDuration] :=
  ⟨applyTrace_startTrace init info, rfl,
   fun P cfg =>
    ⟨List.take_left (startTrace cfg.mediaInfo) (threadTrace P cfg),
     List.drop_left (startTrace cfg.mediaInfo) (threadTrace P cfg),
     rfl⟩⟩

/-- C6 (counterexample): progress is not confined to [0, 100]: with
total duration 1 s and an elapsed time of 200 s the computed progress is
20000, observable by the poller after step 9 of the run. -/
theorem c6_progress_range_counterexample :
    reachable parseDec cfgOvershoot initialState
      (applyTrace initialState ((fullTrace parseDec cfgOvershoot).take 9)) ∧
    ¬((applyTrace initialState
        ((fullTrace parseDec cfgOvershoot).take 9)).progress ≤ 100) := by
  refine ⟨⟨9, rfl⟩, ?_⟩
  rw [show (applyTrace initialState
      ((fullTrace parseDec cfgOvershoot).take 9)).progress
    = ((200000000 : ℕ) : ℚ) / (1 * 1000000) * 100 from rfl]
  norm_num

/-- C6 (amended): progress stays in [0, 100] exactly when every parsed
elapsed value lies within the total duration: for every run from a fresh
state whose parsed elapsed values `e` satisfy
`0 ≤ e ≤ duration * 1000000`, every state the poller can observe has
`progress` in [0, 100].  (Elapsed values beyond the duration exceed 100,
see the counterexample: the source does not clamp.) -/
theorem c6_progress_bounded (P : String → Option ℚ) (cfg : RunConfig)
    (hb : ∀ l ∈ cfg.lines, ∀ e : ℚ, P (timeValue l) = some e →
      0 ≤ e ∧ e ≤ cfg.duration * 1000000) :
    ∀ s, reachable P cfg initialState s →
      0 ≤ s.progress ∧ s.progress ≤ 100 := by
  rintro s ⟨n, rfl⟩
  exact applyTrace_take_progress_bound (fullTrace P cfg)
    (fun q hq => fullTrace_progress_bound hb hq) initialState
    (by norm_num [initialState]) (by norm_num [initialState]) n

/-- Witness for the amended C6 at a concrete in-bounds run. -/
theorem c6_progress_bounded_witness :
    0 ≤ (applyTrace initialState
        ((fullTrace parseDec cfgOk).take 9)).progress ∧
    (applyTrace initialState
        ((fullTrace parseDec cfgOk).take 9)).progress ≤ 100 := by
  refine c6_progress_bounded parseDec cfgOk ?_ _ ⟨9, rfl⟩
  intro l hl e he
  rw [cfgOk] at hl
  simp only [List.mem_singleton] at hl
  subst hl
  rw [show parseDec (timeValue "out_time_ms=50000000")
    = some ((50000000 : ℕ) : ℚ) from by decide] at he
  obtain rfl : e = ((50000000 : ℕ) : ℚ) := (Option.some_injective _ he).symm
  norm_num [cfgOk]
